import Mathlib

/-!
# Dictionary Web App: the lookup-and-render pipeline of `src/index.js`

A shallow embedding of `searchResult`, `fetchData`, `preFetchingActions`,
`fetchSuccessActions`, `removeMessage`, `renderData`, `renderPhonetics`,
`renderMeanings` and `renderSourceUrls`.

Modelling decisions.

* The page is a record `Page` holding exactly the parts of the DOM that the
  embedded functions read or write through the `elements` table.
* A `classList` is the ordered token list of a `DOMTokenList`;
  attributes and inline style declarations are association lists.
* DOM subtrees built by the renderers are values of `Node`.  Every node
  the source builds is completed before it is appended to its parent (or, for
  the container of a meaning, appended to the page after its last child was
  added), so building by value agrees with building by reference.
* The two headings are written through `innerHTML`.  The page keeps the markup
  string last assigned to each; the children of a heading are the result of
  the HTML fragment parser on that string, `parseFragment`.  The parser is
  embedded for a part of the HTML standard only and answers `none` outside
  that part.
* `document.querySelectorAll('.source-urls ul')` ranges over the whole
  document.  Matches can lie in the two headings, whose content comes from
  markup, and in the source-URL section; the rest of the page, the meaning
  section included, is taken not to lie inside an element of class
  `source-urls`.  The markup of the page is not part of the source, so the
  document order of headings and section is a field of `Page`.
* The asynchronous `fetch` is a parameter `net` mapping the requested URL to
  what the transport delivers; `await` is sequential composition.
* A JSON field that the data model types as an optional string is a `JsVal`:
  `undefined` (missing), `null`, or a string.
* `console.error` has no effect on the page and is left out.
-/

namespace Dictionary

/-! ## JavaScript values of optional string fields -/

/-- The value of a JSON field typed as an optional string. -/
inductive JsVal where
  | undefined
  | null
  | str (s : String)
  deriving DecidableEq, Repr

namespace JsVal

/-- JavaScript truthiness: only a non-empty string is truthy here. -/
def truthy : JsVal → Bool
  | str s => s != ""
  | _ => false

/-- The operator `a ?? b`. -/
def nullishCoalesce (a b : JsVal) : JsVal :=
  match a with
  | undefined => b
  | null => b
  | str s => str s

/-- Conversion done by the setter of `innerHTML`, which is declared
`[LegacyNullToEmptyString] DOMString`. -/
def toInnerHTML : JsVal → String
  | undefined => "undefined"
  | null => ""
  | str s => s

/-- The conversion `String(v)` applied by `setAttribute` and by template
literals. -/
def toStr : JsVal → String
  | undefined => "undefined"
  | null => "null"
  | str s => s

end JsVal

/-! ## DOM model -/

/-- A DOM subtree: a text node or an element with its tag, class list,
attributes (in the order they were set) and children. -/
inductive Node where
  | text (data : String)
  | element (tag : String) (classList : List String)
      (attrs : List (String × String)) (children : List Node)
  deriving Repr

/-- The method `DOMTokenList.contains`. -/
def classContains (cl : List String) (token : String) : Bool :=
  cl.contains token

/-- The method `DOMTokenList.add`: the token is appended unless already there. -/
def classAdd (cl : List String) (token : String) : List String :=
  if classContains cl token then cl else cl ++ [token]

/-- The method `DOMTokenList.remove`. -/
def classRemove (cl : List String) (token : String) : List String :=
  cl.filter (fun t => t != token)

/-- The method `getAttribute`, also used to read an inline style property. -/
def getAttribute : List (String × String) → String → Option String
  | [], _ => none
  | (k, v) :: rest, name => if k = name then some v else getAttribute rest name

/-- The method `setAttribute`: an existing attribute keeps its position, a new
one is added at the end. -/
def setAttribute : List (String × String) → String → String → List (String × String)
  | [], name, value => [(name, value)]
  | (k, v) :: rest, name, value =>
      if k = name then (name, value) :: rest else (k, v) :: setAttribute rest name value

/-- The method `removeAttribute`. -/
def removeAttribute : List (String × String) → String → List (String × String)
  | [], _ => []
  | (k, v) :: rest, name =>
      if k = name then removeAttribute rest name else (k, v) :: removeAttribute rest name

/-- The call `document.createElement(tag)`. -/
def createElement (tag : String) : Node :=
  Node.element tag [] [] []

/-- The call `document.createTextNode(data)`. -/
def createTextNode (data : String) : Node :=
  Node.text data

/-- The method `parent.appendChild(child)` for a child that has no parent yet. -/
def appendChild (parent child : Node) : Node :=
  match parent with
  | Node.text d => Node.text d
  | Node.element tag cl attrs cs => Node.element tag cl attrs (cs ++ [child])

/-- The setter of `textContent`: all children are replaced by one text node,
or by nothing when the string is empty. -/
def setTextContent (n : Node) (s : String) : Node :=
  match n with
  | Node.text _ => Node.text s
  | Node.element tag cl attrs _ =>
      Node.element tag cl attrs (if s = "" then [] else [Node.text s])

/-- The call `node.classList.add(token)`. -/
def nodeClassAdd (n : Node) (token : String) : Node :=
  match n with
  | Node.text d => Node.text d
  | Node.element tag cl attrs cs => Node.element tag (classAdd cl token) attrs cs

/-- Setting a reflected property (`href`, `target`, `src`) or calling
`setAttribute` on a node. -/
def nodeSetAttribute (n : Node) (name value : String) : Node :=
  match n with
  | Node.text d => Node.text d
  | Node.element tag cl attrs cs => Node.element tag cl (setAttribute attrs name value) cs

/-- The children of a node. -/
def Node.childNodes : Node → List Node
  | Node.text _ => []
  | Node.element _ _ _ cs => cs

mutual
/-- Paths, in document order, of the `ul` elements in the subtree of a node;
the empty path is the node itself. -/
def ulPaths : Node → List (List Nat)
  | Node.text _ => []
  | Node.element tag _ _ cs =>
      (if tag = "ul" then [[]] else []) ++ ulPathsFrom 0 cs
/-- Paths of the `ul` elements in a list of siblings whose first member has
index `i`. -/
def ulPathsFrom (i : Nat) : List Node → List (List Nat)
  | [] => []
  | c :: cs => (ulPaths c).map (fun p => i :: p) ++ ulPathsFrom (i + 1) cs
end

/-! ## The HTML fragment parser behind `innerHTML` -/

/-- Tokens of the HTML tokenizer that the embedded part produces. -/
inductive HtmlToken where
  | character (c : Char)
  | startTag (name : String) (attrs : List (String × String))
  deriving DecidableEq, Repr

/-- States of the HTML tokenizer that the embedded part goes through; a
state inside a tag carries the tag name, the attributes read so far and the
attribute being read. -/
inductive TokenizerState where
  | data
  | tagOpen
  | tagName (name : List Char)
  | beforeAttributeName (name : List Char) (attrs : List (String × String))
  | attributeName (name : List Char) (attrs : List (String × String)) (an : List Char)
  | beforeAttributeValue (name : List Char) (attrs : List (String × String))
      (an : List Char)
  | attributeValueUnquoted (name : List Char) (attrs : List (String × String))
      (an av : List Char)
  deriving Repr

/-- Characters that the data state emits as they are: everything but `<`
(60), `&` (38), NUL (0) and CR (13). -/
def isDataChar (c : Char) : Bool :=
  c.toNat != 60 && c.toNat != 38 && c.toNat != 0 && c.toNat != 13

/-- Characters accepted in a tag name: lower-case letters and digits. -/
def isNameChar (c : Char) : Bool :=
  c.isLower || c.isDigit

/-- Characters accepted in an attribute name and in an unquoted attribute
value: lower-case letters, digits, `-` (45) and `_` (95). -/
def isValueChar (c : Char) : Bool :=
  c.isLower || c.isDigit || c.toNat == 45 || c.toNat == 95

/-- An attribute is added to a tag unless the tag already has one of that
name. -/
def addAttribute (attrs : List (String × String)) (an av : List Char) :
    List (String × String) :=
  if attrs.any (fun p => p.1 == String.mk an) then attrs
  else attrs ++ [(String.mk an, String.mk av)]

/-- The HTML tokenizer on the embedded part of its input language: text
without `&`, NUL and CR, and start tags written in lower case with attributes
of the form `name=value`, separated by single spaces (32), the value
unquoted.  A tag that the end of the input cuts short is dropped.  Every
other input gives `none`.  The codes 60, 61 and 62 are `<`, `=` and `>`. -/
def tokenize : TokenizerState → List Char → Option (List HtmlToken)
  | TokenizerState.data, [] => some []
  | TokenizerState.data, c :: cs =>
      if c.toNat == 60 then tokenize TokenizerState.tagOpen cs
      else if isDataChar c then
        (tokenize TokenizerState.data cs).map (fun ts => HtmlToken.character c :: ts)
      else none
  | TokenizerState.tagOpen, [] => none
  | TokenizerState.tagOpen, c :: cs =>
      if c.isLower then tokenize (TokenizerState.tagName [c]) cs else none
  | TokenizerState.tagName _, [] => some []
  | TokenizerState.tagName n, c :: cs =>
      if isNameChar c then tokenize (TokenizerState.tagName (n ++ [c])) cs
      else if c.toNat == 32 then tokenize (TokenizerState.beforeAttributeName n []) cs
      else if c.toNat == 62 then
        (tokenize TokenizerState.data cs).map
          (fun ts => HtmlToken.startTag (String.mk n) [] :: ts)
      else none
  | TokenizerState.beforeAttributeName _ _, [] => some []
  | TokenizerState.beforeAttributeName n attrs, c :: cs =>
      if c.toNat == 32 then tokenize (TokenizerState.beforeAttributeName n attrs) cs
      else if c.toNat == 62 then
        (tokenize TokenizerState.data cs).map
          (fun ts => HtmlToken.startTag (String.mk n) attrs :: ts)
      else if c.isLower then tokenize (TokenizerState.attributeName n attrs [c]) cs
      else none
  | TokenizerState.attributeName _ _ _, [] => some []
  | TokenizerState.attributeName n attrs an, c :: cs =>
      if isValueChar c then tokenize (TokenizerState.attributeName n attrs (an ++ [c])) cs
      else if c.toNat == 61 then tokenize (TokenizerState.beforeAttributeValue n attrs an) cs
      else none
  | TokenizerState.beforeAttributeValue _ _ _, [] => some []
  | TokenizerState.beforeAttributeValue n attrs an, c :: cs =>
      if isValueChar c then
        tokenize (TokenizerState.attributeValueUnquoted n attrs an [c]) cs
      else none
  | TokenizerState.attributeValueUnquoted _ _ _ _, [] => some []
  | TokenizerState.attributeValueUnquoted n attrs an av, c :: cs =>
      if isValueChar c then
        tokenize (TokenizerState.attributeValueUnquoted n attrs an (av ++ [c])) cs
      else if c.toNat == 32 then
        tokenize (TokenizerState.beforeAttributeName n (addAttribute attrs an av)) cs
      else if c.toNat == 62 then
        (tokenize TokenizerState.data cs).map
          (fun ts => HtmlToken.startTag (String.mk n) (addAttribute attrs an av) :: ts)
      else none

/-- The text node for a run of characters, none for the empty run. -/
def textNodes (cs : List Char) : List Node :=
  if cs = [] then [] else [Node.text (String.mk cs)]

/-- Tree construction in the insertion mode `in body` for the tokens above:
characters join the pending text run; a start tag of `div`, `ul` or `span`
inserts an element that, no end tag being embedded, holds all that follows.
The attribute `class` becomes the class list.  Other tags give `none`. -/
def buildTree : List HtmlToken → List Char → Option (List Node)
  | [], txt => some (textNodes txt)
  | HtmlToken.character c :: ts, txt => buildTree ts (txt ++ [c])
  | HtmlToken.startTag n attrs :: ts, txt =>
      if n = "div" ∨ n = "ul" ∨ n = "span" then
        (buildTree ts []).map (fun inner =>
          textNodes txt ++
            [Node.element n ((attrs.filter (fun p => p.1 == "class")).map Prod.snd)
              (attrs.filter (fun p => p.1 != "class")) inner])
      else none

/-- The children that the setter of `innerHTML` gives a heading for the
assigned markup, where the embedded part of the parser covers it. -/
def parseFragment (markup : String) : Option (List Node) :=
  (tokenize TokenizerState.data markup.toList).bind (fun ts => buildTree ts [])

mutual
/-- The getter of `textContent`: the text of a subtree. -/
def textContent : Node → String
  | Node.text data => data
  | Node.element _ _ _ cs => textContentOfList cs
/-- The concatenated text of a list of siblings. -/
def textContentOfList : List Node → String
  | [] => ""
  | c :: cs => textContent c ++ textContentOfList cs
end

mutual
/-- The number of elements of a subtree that the selector `.source-urls ul`
matches; `inside` tells whether an ancestor has the class `source-urls`. -/
def sourceUrlsUlCount (inside : Bool) : Node → Nat
  | Node.text _ => 0
  | Node.element tag cl _ cs =>
      (if inside && tag == "ul" then 1 else 0) +
        sourceUrlsUlCountOfList (inside || classContains cl "source-urls") cs
/-- The number of matches of `.source-urls ul` in a list of siblings. -/
def sourceUrlsUlCountOfList (inside : Bool) : List Node → Nat
  | [] => 0
  | c :: cs => sourceUrlsUlCount inside c + sourceUrlsUlCountOfList inside cs
end

/-- The number of matches of `.source-urls ul` inside a heading whose content
was assigned as `markup`; the heading and its ancestors are taken not to have
the class `source-urls`. -/
def headingMatches (markup : String) : Option Nat :=
  (parseFragment markup).map (sourceUrlsUlCountOfList false)

/-! ## Data model of a lookup result -/

/-- One entry of `phonetics`. -/
structure PhoneticVariant where
  text : JsVal
  audio : JsVal
  deriving DecidableEq, Repr

/-- One entry of `definitions`; `example_` is the field `example`. -/
structure Definition where
  definition : String
  example_ : JsVal
  deriving DecidableEq, Repr

/-- One entry of `meanings`. -/
structure Meaning where
  partOfSpeech : String
  definitions : List Definition
  synonyms : List String
  antonyms : List String
  deriving DecidableEq, Repr

/-- One record of the response array. -/
structure LookupResult where
  word : String
  phonetic : JsVal
  phonetics : List PhoneticVariant
  meanings : List Meaning
  sourceUrls : List String
  deriving DecidableEq, Repr

/-! ## The page -/

/-- The parts of the document reached through the `elements` table.
`wordElMarkup` and `phoneticElMarkup` are the strings last assigned to the
`innerHTML` of the two headings.  The markup of the page is not part of the
source: `headingsPrecedeSourceUrls` tells whether the headings come before the
source-URL section in document order. -/
structure Page where
  headingsPrecedeSourceUrls : Bool
  searchInputValue : String
  searchInputStyle : List (String × String)
  errorTextClass : List String
  notFoundClass : List String
  playButtonClass : List String
  wordSectionClass : List String
  meaningSectionClass : List String
  sourceUrlSectionClass : List String
  wordElMarkup : String
  phoneticElMarkup : String
  audioPlayerAttrs : List (String × String)
  meaningSectionChildren : List Node
  sourceUrlSectionChildren : List Node
  deriving Repr

/-- The function `removeMessage`. -/
def removeMessage (p : Page) : Page :=
  if !classContains p.errorTextClass "hide" then
    { p with errorTextClass := classAdd p.errorTextClass "hide"
             searchInputStyle := [] }
  else p

/-- The function `preFetchingActions`. -/
def preFetchingActions (p : Page) : Page :=
  let p1 := if !classContains p.notFoundClass "hide" then
    { p with notFoundClass := classAdd p.notFoundClass "hide" } else p
  let p2 := if !classContains p1.wordSectionClass "hide" then
    { p1 with wordSectionClass := classAdd p1.wordSectionClass "hide" } else p1
  let p3 := if !classContains p2.meaningSectionClass "hide" then
    { p2 with meaningSectionClass := classAdd p2.meaningSectionClass "hide" } else p2
  if !classContains p3.sourceUrlSectionClass "hide" then
    { p3 with sourceUrlSectionClass := classAdd p3.sourceUrlSectionClass "hide" } else p3

/-- The function `fetchSuccessActions`. -/
def fetchSuccessActions (p : Page) : Page :=
  let p0 := removeMessage p
  let p1 := if !classContains p0.notFoundClass "hide" then
    { p0 with notFoundClass := classAdd p0.notFoundClass "hide" } else p0
  { p1 with wordSectionClass := classRemove p1.wordSectionClass "hide"
            meaningSectionClass := classRemove p1.meaningSectionClass "hide"
            sourceUrlSectionClass := classRemove p1.sourceUrlSectionClass "hide" }

/-! ## renderPhonetics -/

/-- The accumulator of the `reduce` in `renderPhonetics`: the initial object
`{}` or an object with the two keys `text` and `audio`. -/
inductive PhoneticAcc where
  | empty
  | pair (text audio : JsVal)
  deriving DecidableEq, Repr

namespace PhoneticAcc

/-- The value `Object.keys(initial).length`. -/
def keysLength : PhoneticAcc → Nat
  | empty => 0
  | pair _ _ => 2

/-- The property `text` of the accumulator. -/
def text : PhoneticAcc → JsVal
  | empty => JsVal.undefined
  | pair t _ => t

/-- The property `audio` of the accumulator. -/
def audio : PhoneticAcc → JsVal
  | empty => JsVal.undefined
  | pair _ a => a

end PhoneticAcc

/-- The callback of the `reduce`: both branches spread the accumulator and
then write the keys `text` and `audio` of the current entry. -/
def phoneticsReducer (initial : PhoneticAcc) (data : PhoneticVariant) : PhoneticAcc :=
  if data.text.truthy && data.audio.truthy && initial.keysLength == 1 then
    PhoneticAcc.pair data.text data.audio
  else
    PhoneticAcc.pair data.text data.audio

/-- The function `renderPhonetics`; an `undefined` second argument takes the
default value `''`. -/
def renderPhonetics (word : String) (phonetic : JsVal)
    (phonetics : List PhoneticVariant) (p : Page) : Page :=
  let phonetic := if phonetic = JsVal.undefined then JsVal.str "" else phonetic
  let p1 := { p with wordElMarkup := word }
  let acc := phonetics.foldl phoneticsReducer PhoneticAcc.empty
  let p2 := { p1 with
    phoneticElMarkup := (acc.text.nullishCoalesce phonetic).toInnerHTML }
  if acc.audio.truthy then
    { p2 with
      audioPlayerAttrs := setAttribute p2.audioPlayerAttrs "src" acc.audio.toStr
      playButtonClass := classRemove p2.playButtonClass "hide" }
  else
    let p3 := if !classContains p2.playButtonClass "hide" then
      { p2 with playButtonClass := classAdd p2.playButtonClass "hide" } else p2
    { p3 with
      audioPlayerAttrs :=
        setAttribute (removeAttribute p3.audioPlayerAttrs "src") "muted" "true" }

/-! ## renderMeanings -/

/-- The double-quote character that the template literal puts around an
example. -/
def dquote : String :=
  String.singleton (Char.ofNat 34)

/-- The body of the loop over `meaning.definitions`: the `li` of one
definition. -/
def definitionItem (definition : Definition) : Node :=
  let li := createElement "li"
  let h4 := setTextContent (createElement "h4") definition.definition
  let li := appendChild li h4
  if definition.example_.truthy then
    let p := setTextContent (createElement "p")
      (dquote ++ definition.example_.toStr ++ dquote)
    if definition.example_.truthy then appendChild li p else li
  else li

/-- The body of the loops over `meaning.synonyms` and `meaning.antonyms`:
the `li` holding the link of one word. -/
def linkItem (word : String) : Node :=
  let li := createElement "li"
  let a := nodeSetAttribute (createElement "a") "href" "javascript:void(0);"
  let a := setTextContent a word
  appendChild li a

/-- The body of the loop of `renderMeanings`: the container `div` of one
meaning, as it is when appended to the meaning section. -/
def meaningContainer (meaning : Meaning) : Node :=
  let containerDiv := createElement "div"
  let h2Meaning := setTextContent (createElement "h2") meaning.partOfSpeech
  let containerDiv := appendChild containerDiv h2Meaning
  let h3Meaning := setTextContent (createElement "h3") "Meaning"
  let containerDiv := appendChild containerDiv h3Meaning
  let ulMeanings := meaning.definitions.foldl
    (fun ul definition => appendChild ul (definitionItem definition)) (createElement "ul")
  let containerDiv := appendChild containerDiv ulMeanings
  let divSynonyms := nodeClassAdd (createElement "div") "synonyms"
  let h3Synonyms := setTextContent (createElement "h3") "Synonyms"
  let containerDiv :=
    if meaning.synonyms.length != 0 then
      let ulSynonyms := meaning.synonyms.foldl
        (fun ul synonym => appendChild ul (linkItem synonym)) (createElement "ul")
      let divSynonyms := appendChild divSynonyms h3Synonyms
      let divSynonyms := appendChild divSynonyms ulSynonyms
      appendChild containerDiv divSynonyms
    else containerDiv
  if meaning.antonyms.length != 0 then
    let divAntonyms := nodeClassAdd (createElement "div") "antonyms"
    let h3Antonyms := setTextContent (createElement "h3") "Antonyms"
    let ulAntonyms := meaning.antonyms.foldl
      (fun ul antonym => appendChild ul (linkItem antonym)) (createElement "ul")
    let divAntonyms := appendChild divAntonyms h3Antonyms
    let divAntonyms := appendChild divAntonyms ulAntonyms
    appendChild containerDiv divAntonyms
  else containerDiv

/-- The function `renderMeanings`: one container is appended to the meaning
section per iteration. -/
def renderMeanings (meanings : List Meaning) (p : Page) : Page :=
  meanings.foldl
    (fun q meaning =>
      { q with meaningSectionChildren :=
          q.meaningSectionChildren ++ [meaningContainer meaning] })
    p

/-! ## renderSourceUrls and renderData -/

/-- Exceptions that the embedded code can raise. -/
inductive JsError where
  | typeError
  | notFoundError
  deriving DecidableEq, Repr

/-- How a call ends: normally, by raising, or at a point where the content of
a heading lies outside the embedded part of the HTML parser, so that the
result of the document query is not determined here. -/
inductive Completion where
  | normal
  | raised (e : JsError)
  | unmodelled
  deriving DecidableEq, Repr

/-- The body of the loop of `renderSourceUrls`: the `li` of one URL. -/
def sourceUrlItem (sourceUrl : String) : Node :=
  let li := createElement "li"
  let a := nodeSetAttribute (createElement "a") "href" sourceUrl
  let a := nodeSetAttribute a "target" "_blank"
  let anchorText := createTextNode sourceUrl
  let img := nodeSetAttribute (createElement "img") "src"
    "./assets/images/icon-new-window.svg"
  let img := nodeSetAttribute img "aria-hidden" "true"
  let a := appendChild a anchorText
  let a := appendChild a img
  appendChild li a

/-- The list element that `renderSourceUrls` builds. -/
def sourceUrlList (sourceUrls : List String) : Node :=
  sourceUrls.foldl (fun ul sourceUrl => appendChild ul (sourceUrlItem sourceUrl))
    (createElement "ul")

/-- The function `renderSourceUrls`.  The callback is called unconditionally:
without one (`none`) the call `callback()` raises a `TypeError`. -/
def renderSourceUrls (sourceUrls : List String)
    (callback : Option (Page → Page × Completion)) (p : Page) : Page × Completion :=
  let ul := sourceUrlList sourceUrls
  let p1 := { p with sourceUrlSectionChildren := p.sourceUrlSectionChildren ++ [ul] }
  match callback with
  | some f => f p1
  | none => (p1, Completion.raised JsError.typeError)

/-- The cleanup callback that `renderData` passes to `renderSourceUrls`.
`document.querySelectorAll('.source-urls ul')` finds, in document order, the
matches inside the two headings (`outside` many) and the `ul` descendants of
the source-URL section (`inSection`, as paths from the section).  When there
is more than one match, `removeChild(el[0])` removes the first match from the
section if it is a child of the section and raises `NotFoundError` if it is
not: that is the case when the first match lies in a heading, or deeper in the
section. -/
def sourceUrlCleanup (p : Page) : Page × Completion :=
  match headingMatches p.wordElMarkup, headingMatches p.phoneticElMarkup with
  | some inWord, some inPhonetic =>
      let outside := inWord + inPhonetic
      let inSection := ulPathsFrom 0 p.sourceUrlSectionChildren
      if outside + inSection.length > 1 then
        if p.headingsPrecedeSourceUrls && decide (outside > 0) then
          (p, Completion.raised JsError.notFoundError)
        else
          match inSection.head? with
          | some [i] =>
              ({ p with sourceUrlSectionChildren := p.sourceUrlSectionChildren.eraseIdx i },
                Completion.normal)
          | _ => (p, Completion.raised JsError.notFoundError)
      else (p, Completion.normal)
  | _, _ => (p, Completion.unmodelled)

/-- The loop `while (section.firstChild) section.removeChild(section.firstChild)`. -/
def removeAllChildren : List Node → List Node
  | [] => []
  | _ :: rest => removeAllChildren rest

/-- The function `renderData`. -/
def renderData (word : String) (phonetic : JsVal) (phonetics : List PhoneticVariant)
    (meanings : List Meaning) (sourceUrls : List String) (p : Page) :
    Page × Completion :=
  let p1 := renderPhonetics word phonetic phonetics p
  let p2 := { p1 with meaningSectionChildren := removeAllChildren p1.meaningSectionChildren }
  let p3 := renderMeanings meanings p2
  renderSourceUrls sourceUrls (some sourceUrlCleanup) p3

/-! ## fetchData and searchResult -/

/-- What `response.json()` resolves to: a value that is not an array, or an
array whose records have the shape of `LookupResult`. -/
inductive JsonData where
  | nonArray
  | array (records : List LookupResult)
  deriving DecidableEq, Repr

/-- What the transport delivers for one request: the promise of `fetch`
rejects, or it resolves to a response with a status; `body` is `none` when
`response.json()` rejects. -/
inductive FetchOutcome where
  | rejected
  | response (status : Nat) (body : Option JsonData)
  deriving DecidableEq, Repr

/-- The fixed part of the request URL. -/
def baseUrl : String :=
  "https://api.dictionaryapi.dev/api/v2/entries/en/"

/-- The handler of the `catch` block of `fetchData`. -/
def showNotFound (p : Page) : Page :=
  { p with notFoundClass := classRemove p.notFoundClass "hide" }

/-- The result of `fetchData`: the page, the URLs passed to `fetch`, and the
returned value (`none` for `undefined`). -/
structure FetchResult where
  page : Page
  requests : List String
  data : Option JsonData
  deriving Repr

/-- The function `fetchData`. -/
def fetchData (net : String → FetchOutcome) (text : String) (p : Page) : FetchResult :=
  let url := baseUrl ++ text
  let p1 := preFetchingActions p
  match net url with
  | FetchOutcome.rejected =>
      { page := showNotFound p1, requests := [url], data := none }
  | FetchOutcome.response status body =>
      if status != 200 then
        { page := showNotFound p1, requests := [url], data := none }
      else
        let p2 := fetchSuccessActions p1
        match body with
        | none => { page := showNotFound p2, requests := [url], data := none }
        | some d => { page := p2, requests := [url], data := some d }

/-- The result of one run of `searchResult`: the page when it stopped, the
URLs passed to `fetch`, the records `renderData` was invoked with, and how
the run ended. -/
structure Outcome where
  page : Page
  requests : List String
  renderCalls : List LookupResult
  completion : Completion
  deriving Repr

/-- The function `searchResult`.  Destructuring `data[0]` of an empty array
raises a `TypeError`. -/
def searchResult (net : String → FetchOutcome) (p : Page) : Outcome :=
  if p.searchInputValue = "" then
    { page := { p with
        errorTextClass := classRemove p.errorTextClass "hide"
        searchInputStyle := setAttribute p.searchInputStyle "outline" "1px solid #ff5252" }
      requests := []
      renderCalls := []
      completion := Completion.normal }
  else
    let r := fetchData net p.searchInputValue p
    match r.data with
    | some (JsonData.array records) =>
        match records with
        | [] =>
            { page := r.page, requests := r.requests, renderCalls := [],
              completion := Completion.raised JsError.typeError }
        | d :: _ =>
            let out := renderData d.word d.phonetic d.phonetics d.meanings d.sourceUrls r.page
            { page := out.1, requests := r.requests, renderCalls := [d],
              completion := out.2 }
    | _ =>
        { page := r.page, requests := r.requests, renderCalls := [],
          completion := Completion.normal }

/-! ## The rendered blocks, as the specification words them -/

/-- An element without classes whose only content is the text `s`. -/
def textElementSpec (tag : String) (attrs : List (String × String)) (s : String) : Node :=
  Node.element tag [] attrs (if s = "" then [] else [Node.text s])

/-- One item of the definitions list: the definition text, followed by the
example between double quotes when the example is a non-empty string. -/
def definitionItemSpec (d : Definition) : Node :=
  Node.element "li" [] []
    (textElementSpec "h4" [] d.definition ::
      (match d.example_ with
       | JsVal.str e =>
          if e = "" then [] else [Node.element "p" [] [] [Node.text (dquote ++ e ++ dquote)]]
       | _ => []))

/-- A synonyms or antonyms block: a `div` of the given class holding a title
and the list of words, each word a link. -/
def wordListSpec (cls title : String) (words : List String) : Node :=
  Node.element "div" [cls] []
    [Node.element "h3" [] [] [Node.text title],
     Node.element "ul" [] []
      (words.map (fun w =>
        Node.element "li" [] [] [textElementSpec "a" [("href", "javascript:void(0);")] w]))]

/-- The block of one meaning: the part-of-speech label, the heading
`Meaning`, the definitions list, then the synonyms block when there are
synonyms, then the antonyms block when there are antonyms. -/
def meaningBlockSpec (m : Meaning) : Node :=
  Node.element "div" [] []
    ([textElementSpec "h2" [] m.partOfSpeech,
      Node.element "h3" [] [] [Node.text "Meaning"],
      Node.element "ul" [] [] (m.definitions.map definitionItemSpec)] ++
     (if m.synonyms = [] then [] else [wordListSpec "synonyms" "Synonyms" m.synonyms]) ++
     (if m.antonyms = [] then [] else [wordListSpec "antonyms" "Antonyms" m.antonyms]))

/-- Whether a node has a child element carrying the class `cls`. -/
def hasChildOfClass (n : Node) (cls : String) : Bool :=
  n.childNodes.any (fun c =>
    match c with
    | Node.text _ => false
    | Node.element _ cl _ _ => classContains cl cls)

/-! ## Sequences of renderData calls -/

/-- A sequence of `renderData` calls, one per result, each on the page left
by the call before, with the way each call ended.  A call that raises leaves
the page as it was when it raised, and the next call goes on from there. -/
def renderDataSequence : List LookupResult → Page → Page × List Completion
  | [], p => (p, [])
  | r :: rest, p =>
      ((renderDataSequence rest
          (renderData r.word r.phonetic r.phonetics r.meanings r.sourceUrls p).1).1,
        (renderData r.word r.phonetic r.phonetics r.meanings r.sourceUrls p).2 ::
          (renderDataSequence rest
            (renderData r.word r.phonetic r.phonetics r.meanings r.sourceUrls p).1).2)

/-- The attribution list of the specification: one entry per URL, each a link
that opens in a new context, with the URL as its text followed by the
external-link icon. -/
def sourceUrlListSpec (sourceUrls : List String) : Node :=
  Node.element "ul" [] []
    (sourceUrls.map (fun u =>
      Node.element "li" [] []
        [Node.element "a" [] [("href", u), ("target", "_blank")]
          [Node.text u,
           Node.element "img" []
            [("src", "./assets/images/icon-new-window.svg"), ("aria-hidden", "true")] []]]))

/-- A result whose word is the markup of a `div` of class `source-urls`
holding a `ul`, with one source URL. -/
def markupWordResult : LookupResult :=
  { word := "<div class=source-urls><ul>"
    phonetic := JsVal.undefined
    phonetics := []
    meanings := []
    sourceUrls := ["https://a.example/x"] }

/-- The markup that `renderPhonetics` assigns to the phonetic heading. -/
def phoneticMarkupOf (phonetic : JsVal) (phonetics : List PhoneticVariant) : String :=
  ((phonetics.foldl phoneticsReducer PhoneticAcc.empty).text.nullishCoalesce
    (if phonetic = JsVal.undefined then JsVal.str "" else phonetic)).toInnerHTML

/-! ## URL-encoding, as the specification words it -/

/-- The upper-case hexadecimal digit of a number below 16. -/
def hexDigit (n : Nat) : Char :=
  if n < 10 then Char.ofNat (48 + n) else Char.ofNat (55 + n)

/-- The percent-escape of one byte. -/
def percentEscape (b : Nat) : List Char :=
  [Char.ofNat 37, hexDigit (b / 16), hexDigit (b % 16)]

/-- The UTF-8 bytes of a code point. -/
def utf8Bytes (n : Nat) : List Nat :=
  if n < 128 then [n]
  else if n < 2048 then [192 + n / 64, 128 + n % 64]
  else if n < 65536 then [224 + n / 4096, 128 + (n / 64) % 64, 128 + n % 64]
  else [240 + n / 262144, 128 + (n / 4096) % 64, 128 + (n / 64) % 64, 128 + n % 64]

/-- The characters that URL-encoding of a path component leaves as they are:
letters, digits and the marks `- _ . ! ~ * ( )` and the apostrophe. -/
def uriUnreserved (c : Char) : Bool :=
  c.isAlphanum || [45, 95, 46, 33, 126, 42, 39, 40, 41].contains c.toNat

/-- The URL-encoding of a query text that the specification asks for in the
request path (the standard function `encodeURIComponent`); `fetchData` does
not call it. -/
def urlEncodeSpec (q : String) : String :=
  String.mk (q.toList.flatMap
    (fun c => if uriUnreserved c then [c] else (utf8Bytes c.toNat).flatMap percentEscape))

/-! ## Failed requests -/

/-- A request fails before the body is read: the transport fails or the status
is not 200. -/
def requestFails (o : FetchOutcome) : Bool :=
  match o with
  | FetchOutcome.rejected => true
  | FetchOutcome.response status _ => status != 200

/-! ## A sample page -/

/-- A page as it is before the first lookup: result sections, error text,
not-found indicator and play button hidden, no rendered content. -/
def samplePage : Page :=
  { headingsPrecedeSourceUrls := true
    searchInputValue := ""
    searchInputStyle := []
    errorTextClass := ["error-text", "hide"]
    notFoundClass := ["not-found", "hide"]
    playButtonClass := ["play-button", "hide"]
    wordSectionClass := ["word", "hide"]
    meaningSectionClass := ["meanings", "hide"]
    sourceUrlSectionClass := ["source-urls", "hide"]
    wordElMarkup := ""
    phoneticElMarkup := ""
    audioPlayerAttrs := [("id", "audio-player")]
    meaningSectionChildren := []
    sourceUrlSectionChildren := [] }

/-! ## Lemmas on class lists and attributes -/

theorem classContains_classRemove (cl : List String) (t : String) :
    classContains (classRemove cl t) t = false := by
  simp [classContains, classRemove]

theorem classContains_classAdd (cl : List String) (t : String) :
    classContains (classAdd cl t) t = true := by
  unfold classAdd
  by_cases h : classContains cl t = true
  · simp [h]
  · rw [if_neg h]
    simp [classContains]

theorem classContains_ensure (cl : List String) (t : String) :
    classContains (if (!classContains cl t) = true then classAdd cl t else cl) t = true := by
  by_cases h : classContains cl t = true
  · simp [h]
  · simp [h, classContains_classAdd]

theorem getAttribute_setAttribute_same (attrs : List (String × String)) (n v : String) :
    getAttribute (setAttribute attrs n v) n = some v := by
  induction attrs with
  | nil => simp [setAttribute, getAttribute]
  | cons a rest ih =>
      obtain ⟨k, w⟩ := a
      by_cases hk : k = n
      · simp [setAttribute, getAttribute, hk]
      · simp [setAttribute, getAttribute, hk, ih]

theorem getAttribute_setAttribute_other (attrs : List (String × String))
    (n m v : String) (hnm : n ≠ m) :
    getAttribute (setAttribute attrs n v) m = getAttribute attrs m := by
  induction attrs with
  | nil => simp [setAttribute, getAttribute, hnm]
  | cons a rest ih =>
      obtain ⟨k, w⟩ := a
      by_cases hk : k = n
      · subst hk
        simp [setAttribute, getAttribute, hnm]
      · by_cases hm : k = m
        · subst hm
          simp [setAttribute, getAttribute, hk]
        · simp [setAttribute, getAttribute, hk, hm, ih]

theorem getAttribute_removeAttribute_same (attrs : List (String × String)) (n : String) :
    getAttribute (removeAttribute attrs n) n = none := by
  induction attrs with
  | nil => simp [removeAttribute, getAttribute]
  | cons a rest ih =>
      obtain ⟨k, w⟩ := a
      by_cases hk : k = n
      · simp [removeAttribute, hk, ih]
      · simp [removeAttribute, getAttribute, hk, ih]

theorem getAttribute_removeAttribute_other (attrs : List (String × String))
    (n m : String) (hnm : n ≠ m) :
    getAttribute (removeAttribute attrs n) m = getAttribute attrs m := by
  induction attrs with
  | nil => simp [removeAttribute, getAttribute]
  | cons a rest ih =>
      obtain ⟨k, w⟩ := a
      by_cases hk : k = n
      · subst hk
        simp [removeAttribute, getAttribute, hnm, ih]
      · by_cases hm : k = m
        · subst hm
          simp [removeAttribute, getAttribute, hk]
        · simp [removeAttribute, getAttribute, hk, hm, ih]

/-! ## Lemmas on the reduce of renderPhonetics -/

theorem phoneticsReducer_eq (initial : PhoneticAcc) (data : PhoneticVariant) :
    phoneticsReducer initial data = PhoneticAcc.pair data.text data.audio := by
  unfold phoneticsReducer
  split <;> rfl

theorem foldl_phoneticsReducer (phonetics : List PhoneticVariant) (acc : PhoneticAcc) :
    phonetics.foldl phoneticsReducer acc =
      match phonetics.getLast? with
      | none => acc
      | some v => PhoneticAcc.pair v.text v.audio := by
  induction phonetics generalizing acc with
  | nil => rfl
  | cons v rest ih =>
      rw [List.foldl_cons, ih, phoneticsReducer_eq]
      cases rest with
      | nil => rfl
      | cons w rest2 =>
          rw [List.getLast?_cons_cons]
          cases h : (w :: rest2).getLast? with
          | none => simp at h
          | some u => rfl

theorem renderPhonetics_fields (word : String) (phonetic : JsVal)
    (phonetics : List PhoneticVariant) (p : Page) :
    (renderPhonetics word phonetic phonetics p).wordElMarkup = word ∧
    (renderPhonetics word phonetic phonetics p).phoneticElMarkup =
      ((phonetics.foldl phoneticsReducer PhoneticAcc.empty).text.nullishCoalesce
        (if phonetic = JsVal.undefined then JsVal.str "" else phonetic)).toInnerHTML := by
  unfold renderPhonetics
  cases ha : (phonetics.foldl phoneticsReducer PhoneticAcc.empty).audio.truthy <;>
    cases hc : classContains p.playButtonClass "hide" <;> simp [ha, hc]

theorem renderPhonetics_audio_truthy (word : String) (phonetic : JsVal)
    (phonetics : List PhoneticVariant) (p : Page)
    (h : (phonetics.foldl phoneticsReducer PhoneticAcc.empty).audio.truthy = true) :
    (renderPhonetics word phonetic phonetics p).audioPlayerAttrs =
      setAttribute p.audioPlayerAttrs "src"
        (phonetics.foldl phoneticsReducer PhoneticAcc.empty).audio.toStr ∧
    (renderPhonetics word phonetic phonetics p).playButtonClass =
      classRemove p.playButtonClass "hide" := by
  unfold renderPhonetics
  simp [h]

theorem renderPhonetics_audio_falsy (word : String) (phonetic : JsVal)
    (phonetics : List PhoneticVariant) (p : Page)
    (h : (phonetics.foldl phoneticsReducer PhoneticAcc.empty).audio.truthy = false) :
    (renderPhonetics word phonetic phonetics p).audioPlayerAttrs =
      setAttribute (removeAttribute p.audioPlayerAttrs "src") "muted" "true" ∧
    (renderPhonetics word phonetic phonetics p).playButtonClass =
      (if (!classContains p.playButtonClass "hide") = true
        then classAdd p.playButtonClass "hide" else p.playButtonClass) := by
  unfold renderPhonetics
  cases hc : classContains p.playButtonClass "hide" <;> simp [h, hc]

/-! ## The parser on text without markup -/

theorem tokenize_data_plain (cs : List Char) (h : cs.all isDataChar = true) :
    tokenize TokenizerState.data cs = some (cs.map HtmlToken.character) := by
  induction cs with
  | nil => rfl
  | cons c rest ih =>
      simp only [List.all_cons, Bool.and_eq_true] at h
      have hc := h.1
      have hlt : (c.toNat == 60) = false := by
        simp only [isDataChar, Bool.and_eq_true, bne_iff_ne, ne_eq] at hc
        simpa using hc.1.1.1
      simp only [tokenize, hlt, hc, ih h.2]
      simp

theorem buildTree_characters (cs txt : List Char) :
    buildTree (cs.map HtmlToken.character) txt = some (textNodes (txt ++ cs)) := by
  induction cs generalizing txt with
  | nil => simp [buildTree]
  | cons c rest ih =>
      simp only [List.map_cons, buildTree, ih]
      simp

theorem parseFragment_plain (s : String) (h : s.toList.all isDataChar = true) :
    parseFragment s = some (if s = "" then [] else [Node.text s]) := by
  unfold parseFragment
  rw [tokenize_data_plain _ h]
  simp only [Option.some_bind, buildTree_characters, List.nil_append, textNodes]
  by_cases hs : s = ""
  · subst hs
    rfl
  · have hl : s.toList ≠ [] := by
      intro hl
      apply hs
      have : s = String.mk s.toList := rfl
      rw [this, hl]
    have hd : s.data ≠ [] := hl
    simp [hd, hs]

theorem headingMatches_plain (s : String) (h : s.toList.all isDataChar = true) :
    headingMatches s = some 0 := by
  unfold headingMatches
  rw [parseFragment_plain s h]
  by_cases hs : s = "" <;> simp [hs, sourceUrlsUlCountOfList, sourceUrlsUlCount]

theorem textContent_plain (s : String) (h : s.toList.all isDataChar = true) :
    (parseFragment s).map textContentOfList = some s := by
  rw [parseFragment_plain s h]
  by_cases hs : s = ""
  · subst hs
    rfl
  · simp [hs, textContentOfList, textContent]

/-! ## Phonetic text (C1) -/

/-- The markup assigned to the phonetic heading is the text of the last entry
of `phonetics` when that text is a string (not `undefined` or `null`),
otherwise the top-level `phonetic` when that is a string, otherwise the empty
string; entries before the last one do not influence it.  When that markup has
none of the characters `<`, `&`, NUL and CR, the heading displays it as it
is. -/
theorem renderPhonetics_phonetic_markup (word : String) (phonetic : JsVal)
    (phonetics : List PhoneticVariant) (p : Page) :
    (renderPhonetics word phonetic phonetics p).phoneticElMarkup =
      (match phonetics.getLast?.map PhoneticVariant.text with
       | some (JsVal.str t) => t
       | _ =>
          match phonetic with
          | JsVal.str f => f
          | _ => "") ∧
    (∀ (earlier : List PhoneticVariant) (last : PhoneticVariant),
      (renderPhonetics word phonetic (earlier ++ [last]) p).phoneticElMarkup =
        (renderPhonetics word phonetic [last] p).phoneticElMarkup) ∧
    (renderPhonetics word (JsVal.str "fallback") [] p).phoneticElMarkup = "fallback" ∧
    ((renderPhonetics word phonetic phonetics p).phoneticElMarkup.toList.all isDataChar = true →
      (parseFragment (renderPhonetics word phonetic phonetics p).phoneticElMarkup).map
          textContentOfList =
        some (renderPhonetics word phonetic phonetics p).phoneticElMarkup) := by
  refine ⟨?_, ?_, ?_, ?_⟩
  · rw [(renderPhonetics_fields word phonetic phonetics p).2, foldl_phoneticsReducer]
    cases hl : phonetics.getLast? with
    | none => cases phonetic <;> rfl
    | some v =>
        cases ht : v.text <;> cases phonetic <;>
          simp [PhoneticAcc.text, JsVal.nullishCoalesce, JsVal.toInnerHTML, ht]
  · intro earlier last
    rw [(renderPhonetics_fields word phonetic (earlier ++ [last]) p).2,
      (renderPhonetics_fields word phonetic [last] p).2,
      foldl_phoneticsReducer, foldl_phoneticsReducer]
    simp
  · rw [(renderPhonetics_fields word (JsVal.str "fallback") [] p).2]
    simp [PhoneticAcc.text, JsVal.nullishCoalesce, JsVal.toInnerHTML]
  · intro h
    exact textContent_plain _ h

/-- C1 at its failing input: `phonetic` is `fb` and the only entry of
`phonetics` has the text `a<b`.  `renderPhonetics` assigns `a<b` to
`innerHTML` as markup; the parser drops the tag that the end of the input cuts
short, so the heading holds the one text node `a` and displays `a`, which is
neither the text of the last entry nor the fallback. -/
theorem renderPhonetics_text_parsed_as_markup :
    (renderPhonetics "w" (JsVal.str "fb") [⟨JsVal.str "a<b", JsVal.undefined⟩]
        samplePage).phoneticElMarkup = "a<b" ∧
    parseFragment (renderPhonetics "w" (JsVal.str "fb") [⟨JsVal.str "a<b", JsVal.undefined⟩]
        samplePage).phoneticElMarkup = some [Node.text "a"] ∧
    (parseFragment (renderPhonetics "w" (JsVal.str "fb")
        [⟨JsVal.str "a<b", JsVal.undefined⟩] samplePage).phoneticElMarkup).map
        textContentOfList = some "a" := by
  refine ⟨by decide, by rfl, by decide⟩

theorem renderPhonetics_audio_cases (phonetics : List PhoneticVariant) :
    (phonetics.foldl phoneticsReducer PhoneticAcc.empty).audio.truthy =
      (match phonetics.getLast?.map PhoneticVariant.audio with
       | some (JsVal.str a) => a != ""
       | _ => false) ∧
    ((phonetics.foldl phoneticsReducer PhoneticAcc.empty).audio.truthy = true →
      ∃ a, phonetics.getLast?.map PhoneticVariant.audio = some (JsVal.str a) ∧ a ≠ "" ∧
        (phonetics.foldl phoneticsReducer PhoneticAcc.empty).audio.toStr = a) := by
  rw [foldl_phoneticsReducer]
  cases hl : phonetics.getLast? with
  | none => simp [PhoneticAcc.audio, JsVal.truthy]
  | some v =>
      cases ha : v.audio <;>
        simp [PhoneticAcc.audio, JsVal.truthy, JsVal.toStr, ha]

theorem renderPhonetics_play_src (word : String) (phonetic : JsVal)
    (phonetics : List PhoneticVariant) (p : Page) :
    (classContains (renderPhonetics word phonetic phonetics p).playButtonClass "hide",
      getAttribute (renderPhonetics word phonetic phonetics p).audioPlayerAttrs "src") =
      (match phonetics.getLast?.map PhoneticVariant.audio with
       | some (JsVal.str a) => if a = "" then (true, none) else (false, some a)
       | _ => (true, none)) := by
  obtain ⟨hc, hs⟩ := renderPhonetics_audio_cases phonetics
  cases ht : (phonetics.foldl phoneticsReducer PhoneticAcc.empty).audio.truthy with
  | true =>
      obtain ⟨a, hlast, hne, hstr⟩ := hs ht
      obtain ⟨h1, h2⟩ := renderPhonetics_audio_truthy word phonetic phonetics p ht
      rw [h1, h2, classContains_classRemove, getAttribute_setAttribute_same, hstr, hlast]
      simp [hne]
  | false =>
      obtain ⟨h1, h2⟩ := renderPhonetics_audio_falsy word phonetic phonetics p ht
      rw [h1, h2, classContains_ensure,
        getAttribute_setAttribute_other _ "muted" "src" "true" (by decide),
        getAttribute_removeAttribute_same]
      rw [ht] at hc
      cases hm : phonetics.getLast?.map PhoneticVariant.audio with
      | none => rfl
      | some v =>
          cases v with
          | undefined => rfl
          | null => rfl
          | str a =>
              rw [hm] at hc
              have : a = "" := by simpa using hc.symm
              simp [this]

theorem renderPhonetics_muted (word : String) (phonetic : JsVal)
    (phonetics : List PhoneticVariant) (p : Page) :
    getAttribute (renderPhonetics word phonetic phonetics p).audioPlayerAttrs "muted" =
      (match phonetics.getLast?.map PhoneticVariant.audio with
       | some (JsVal.str a) =>
          if a = "" then some "true" else getAttribute p.audioPlayerAttrs "muted"
       | _ => some "true") := by
  obtain ⟨hc, hs⟩ := renderPhonetics_audio_cases phonetics
  cases ht : (phonetics.foldl phoneticsReducer PhoneticAcc.empty).audio.truthy with
  | true =>
      obtain ⟨a, hlast, hne, _⟩ := hs ht
      rw [(renderPhonetics_audio_truthy word phonetic phonetics p ht).1,
        getAttribute_setAttribute_other _ "src" "muted" _ (by decide), hlast]
      simp [hne]
  | false =>
      rw [(renderPhonetics_audio_falsy word phonetic phonetics p ht).1,
        getAttribute_setAttribute_same]
      rw [ht] at hc
      cases hm : phonetics.getLast?.map PhoneticVariant.audio with
      | none => rfl
      | some v =>
          cases v with
          | undefined => rfl
          | null => rfl
          | str a =>
              rw [hm] at hc
              have : a = "" := by simpa using hc.symm
              simp [this]

/-! ## Audio source and play button (C2) -/

/-- C2: after `renderPhonetics` the play button is shown (its class list has
no `hide`) and the `src` of the audio player is the audio of the last entry of
`phonetics` exactly when that audio is a non-empty string; for an empty list
and for a last entry whose audio is missing, `null` or empty, whatever the
earlier entries hold, the play button is hidden and the player has no `src`.
For `[{text:"a", audio:""}, {text:"b", audio:"b.mp3"}]` the markup assigned
to the phonetic heading is `b`, which the heading displays as the text `b`,
the `src` is `b.mp3` and the play button is shown. -/
theorem renderPhonetics_audio_source (word : String) (phonetic : JsVal)
    (phonetics : List PhoneticVariant) (p : Page) :
    (classContains (renderPhonetics word phonetic phonetics p).playButtonClass "hide",
      getAttribute (renderPhonetics word phonetic phonetics p).audioPlayerAttrs "src") =
      (match phonetics.getLast?.map PhoneticVariant.audio with
       | some (JsVal.str a) => if a = "" then (true, none) else (false, some a)
       | _ => (true, none)) ∧
    (renderPhonetics word phonetic
        [⟨JsVal.str "a", JsVal.str ""⟩, ⟨JsVal.str "b", JsVal.str "b.mp3"⟩]
        p).phoneticElMarkup = "b" ∧
    getAttribute (renderPhonetics word phonetic
        [⟨JsVal.str "a", JsVal.str ""⟩, ⟨JsVal.str "b", JsVal.str "b.mp3"⟩]
        p).audioPlayerAttrs "src" = some "b.mp3" ∧
    classContains (renderPhonetics word phonetic
        [⟨JsVal.str "a", JsVal.str ""⟩, ⟨JsVal.str "b", JsVal.str "b.mp3"⟩]
        p).playButtonClass "hide" = false ∧
    (parseFragment (renderPhonetics word phonetic
        [⟨JsVal.str "a", JsVal.str ""⟩, ⟨JsVal.str "b", JsVal.str "b.mp3"⟩]
        p).phoneticElMarkup).map textContentOfList = some "b" := by
  have hmarkup : (renderPhonetics word phonetic
      [⟨JsVal.str "a", JsVal.str ""⟩, ⟨JsVal.str "b", JsVal.str "b.mp3"⟩]
      p).phoneticElMarkup = "b" := by
    rw [(renderPhonetics_fields word phonetic _ p).2, foldl_phoneticsReducer]
    simp [PhoneticAcc.text, JsVal.nullishCoalesce, JsVal.toInnerHTML]
  refine ⟨renderPhonetics_play_src word phonetic phonetics p, hmarkup, ?_, ?_,
    by rw [hmarkup]; decide⟩
  · have h := renderPhonetics_play_src word phonetic
      [⟨JsVal.str "a", JsVal.str ""⟩, ⟨JsVal.str "b", JsVal.str "b.mp3"⟩] p
    simp at h
    exact h.2
  · have h := renderPhonetics_play_src word phonetic
      [⟨JsVal.str "a", JsVal.str ""⟩, ⟨JsVal.str "b", JsVal.str "b.mp3"⟩] p
    simp at h
    exact h.1

/-! ## Superseding the phonetics area (C9) -/

/-- C9, as stated, fails: starting from the sample page, rendering a result
without audio and then a result with audio `b.mp3` leaves the audio player with
the attribute `muted`, whereas rendering the second result alone leaves it
without that attribute. -/
theorem renderPhonetics_muted_not_superseded :
    getAttribute (renderPhonetics "b" JsVal.undefined
        [⟨JsVal.str "b", JsVal.str "b.mp3"⟩]
        (renderPhonetics "a" JsVal.undefined [] samplePage)).audioPlayerAttrs "muted"
      = some "true" ∧
    getAttribute (renderPhonetics "b" JsVal.undefined
        [⟨JsVal.str "b", JsVal.str "b.mp3"⟩] samplePage).audioPlayerAttrs "muted"
      = none := by
  constructor <;> decide

/-- C9, amended: for every pair of starting pages and every argument triple,
`renderPhonetics` leaves the word heading, the phonetic text, the visibility
of the play button and the `src` of the audio player in the same state; the
attribute `muted` is set to `true` when the last entry has no non-empty audio
and is left as it was on each page otherwise.  Hence rendering one result and
then another gives the same heading, text, play button visibility and `src` as
rendering the second alone. -/
theorem renderPhonetics_supersedes (word : String) (phonetic : JsVal)
    (phonetics : List PhoneticVariant) (p1 p2 : Page) :
    (renderPhonetics word phonetic phonetics p1).wordElMarkup =
      (renderPhonetics word phonetic phonetics p2).wordElMarkup ∧
    (renderPhonetics word phonetic phonetics p1).phoneticElMarkup =
      (renderPhonetics word phonetic phonetics p2).phoneticElMarkup ∧
    classContains (renderPhonetics word phonetic phonetics p1).playButtonClass "hide" =
      classContains (renderPhonetics word phonetic phonetics p2).playButtonClass "hide" ∧
    getAttribute (renderPhonetics word phonetic phonetics p1).audioPlayerAttrs "src" =
      getAttribute (renderPhonetics word phonetic phonetics p2).audioPlayerAttrs "src" ∧
    (getAttribute (renderPhonetics word phonetic phonetics p1).audioPlayerAttrs "muted",
      getAttribute (renderPhonetics word phonetic phonetics p2).audioPlayerAttrs "muted") =
      (match phonetics.getLast?.map PhoneticVariant.audio with
       | some (JsVal.str a) =>
          if a = "" then (some "true", some "true")
          else (getAttribute p1.audioPlayerAttrs "muted",
                getAttribute p2.audioPlayerAttrs "muted")
       | _ => (some "true", some "true")) ∧
    (∀ (word0 : String) (phonetic0 : JsVal) (phonetics0 : List PhoneticVariant),
      (renderPhonetics word phonetic phonetics
          (renderPhonetics word0 phonetic0 phonetics0 p1)).wordElMarkup =
        (renderPhonetics word phonetic phonetics p1).wordElMarkup ∧
      (renderPhonetics word phonetic phonetics
          (renderPhonetics word0 phonetic0 phonetics0 p1)).phoneticElMarkup =
        (renderPhonetics word phonetic phonetics p1).phoneticElMarkup ∧
      classContains (renderPhonetics word phonetic phonetics
          (renderPhonetics word0 phonetic0 phonetics0 p1)).playButtonClass "hide" =
        classContains (renderPhonetics word phonetic phonetics p1).playButtonClass "hide" ∧
      getAttribute (renderPhonetics word phonetic phonetics
          (renderPhonetics word0 phonetic0 phonetics0 p1)).audioPlayerAttrs "src" =
        getAttribute (renderPhonetics word phonetic phonetics p1).audioPlayerAttrs "src") := by
  have hw : ∀ q : Page, (renderPhonetics word phonetic phonetics q).wordElMarkup = word :=
    fun q => (renderPhonetics_fields word phonetic phonetics q).1
  have hp := fun q : Page => (renderPhonetics_fields word phonetic phonetics q).2
  have hps := fun q : Page => renderPhonetics_play_src word phonetic phonetics q
  have hcls : ∀ q1 q2 : Page,
      classContains (renderPhonetics word phonetic phonetics q1).playButtonClass "hide" =
        classContains (renderPhonetics word phonetic phonetics q2).playButtonClass "hide" ∧
      getAttribute (renderPhonetics word phonetic phonetics q1).audioPlayerAttrs "src" =
        getAttribute (renderPhonetics word phonetic phonetics q2).audioPlayerAttrs "src" := by
    intro q1 q2
    have h := (hps q1).trans (hps q2).symm
    exact ⟨congrArg Prod.fst h, congrArg Prod.snd h⟩
  refine ⟨by rw [hw, hw], by rw [hp, hp], (hcls p1 p2).1, (hcls p1 p2).2, ?_, ?_⟩
  · rw [renderPhonetics_muted, renderPhonetics_muted]
    cases phonetics.getLast?.map PhoneticVariant.audio with
    | none => rfl
    | some v =>
        cases v with
        | undefined => rfl
        | null => rfl
        | str a => by_cases h : a = "" <;> simp [h]
  · intro word0 phonetic0 phonetics0
    exact ⟨by rw [hw, hw], by rw [hp, hp], (hcls _ p1).1, (hcls _ p1).2⟩

/-! ## Lemmas on the fetch pipeline -/

theorem preFetchingActions_fields (p : Page) :
    classContains (preFetchingActions p).notFoundClass "hide" = true ∧
    classContains (preFetchingActions p).wordSectionClass "hide" = true ∧
    classContains (preFetchingActions p).meaningSectionClass "hide" = true ∧
    classContains (preFetchingActions p).sourceUrlSectionClass "hide" = true ∧
    (preFetchingActions p).wordElMarkup = p.wordElMarkup ∧
    (preFetchingActions p).phoneticElMarkup = p.phoneticElMarkup ∧
    (preFetchingActions p).audioPlayerAttrs = p.audioPlayerAttrs ∧
    (preFetchingActions p).meaningSectionChildren = p.meaningSectionChildren ∧
    (preFetchingActions p).sourceUrlSectionChildren = p.sourceUrlSectionChildren := by
  unfold preFetchingActions
  cases h1 : classContains p.notFoundClass "hide" <;>
    cases h2 : classContains p.wordSectionClass "hide" <;>
    cases h3 : classContains p.meaningSectionClass "hide" <;>
    cases h4 : classContains p.sourceUrlSectionClass "hide" <;>
    simp [h1, h2, h3, h4, classContains_classAdd]

theorem fetchSuccessActions_fields (p : Page) :
    classContains (fetchSuccessActions p).notFoundClass "hide" = true ∧
    classContains (fetchSuccessActions p).wordSectionClass "hide" = false ∧
    classContains (fetchSuccessActions p).meaningSectionClass "hide" = false ∧
    classContains (fetchSuccessActions p).sourceUrlSectionClass "hide" = false ∧
    (fetchSuccessActions p).wordElMarkup = p.wordElMarkup ∧
    (fetchSuccessActions p).phoneticElMarkup = p.phoneticElMarkup ∧
    (fetchSuccessActions p).audioPlayerAttrs = p.audioPlayerAttrs ∧
    (fetchSuccessActions p).meaningSectionChildren = p.meaningSectionChildren ∧
    (fetchSuccessActions p).sourceUrlSectionChildren = p.sourceUrlSectionChildren := by
  unfold fetchSuccessActions removeMessage
  cases h0 : classContains p.errorTextClass "hide" <;>
    cases h1 : classContains p.notFoundClass "hide" <;>
    simp [h0, h1, classContains_classAdd, classContains_classRemove]

theorem showNotFound_fields (p : Page) :
    classContains (showNotFound p).notFoundClass "hide" = false ∧
    (showNotFound p).wordSectionClass = p.wordSectionClass ∧
    (showNotFound p).meaningSectionClass = p.meaningSectionClass ∧
    (showNotFound p).sourceUrlSectionClass = p.sourceUrlSectionClass ∧
    (showNotFound p).wordElMarkup = p.wordElMarkup ∧
    (showNotFound p).phoneticElMarkup = p.phoneticElMarkup ∧
    (showNotFound p).audioPlayerAttrs = p.audioPlayerAttrs ∧
    (showNotFound p).meaningSectionChildren = p.meaningSectionChildren ∧
    (showNotFound p).sourceUrlSectionChildren = p.sourceUrlSectionChildren := by
  simp [showNotFound, classContains_classRemove]

theorem fetchData_of_requestFails (net : String → FetchOutcome) (text : String) (p : Page)
    (h : requestFails (net (baseUrl ++ text)) = true) :
    fetchData net text p =
      { page := showNotFound (preFetchingActions p), requests := [baseUrl ++ text],
        data := none } := by
  unfold fetchData
  cases hn : net (baseUrl ++ text) with
  | rejected => simp [hn]
  | response status body =>
      rw [hn] at h
      simp only [requestFails] at h
      simp only [hn, h, if_true]

theorem fetchData_of_ok (net : String → FetchOutcome) (text : String) (p : Page)
    (body : Option JsonData)
    (h : net (baseUrl ++ text) = FetchOutcome.response 200 body) :
    fetchData net text p =
      match body with
      | none =>
          { page := showNotFound (fetchSuccessActions (preFetchingActions p)),
            requests := [baseUrl ++ text], data := none }
      | some d =>
          { page := fetchSuccessActions (preFetchingActions p),
            requests := [baseUrl ++ text], data := some d } := by
  unfold fetchData
  simp only [h]
  cases body <;> simp

theorem fetchData_requests (net : String → FetchOutcome) (text : String) (p : Page) :
    (fetchData net text p).requests = [baseUrl ++ text] := by
  unfold fetchData
  cases hn : net (baseUrl ++ text) with
  | rejected => simp [hn]
  | response status body =>
      by_cases hs : (status != 200) = true
      · simp only [hn, hs, if_true]
      · cases body <;> simp only [hn, hs] <;> rfl

theorem searchResult_of_empty (net : String → FetchOutcome) (p : Page)
    (h : p.searchInputValue = "") :
    searchResult net p =
      { page := { p with
          errorTextClass := classRemove p.errorTextClass "hide"
          searchInputStyle := setAttribute p.searchInputStyle "outline" "1px solid #ff5252" }
        requests := []
        renderCalls := []
        completion := Completion.normal } := by
  unfold searchResult
  rw [if_pos h]

theorem searchResult_of_no_data (net : String → FetchOutcome) (p : Page)
    (h : p.searchInputValue ≠ "")
    (hd : (fetchData net p.searchInputValue p).data = none) :
    searchResult net p =
      { page := (fetchData net p.searchInputValue p).page
        requests := (fetchData net p.searchInputValue p).requests
        renderCalls := []
        completion := Completion.normal } := by
  unfold searchResult
  rw [if_neg h]
  simp only [hd]

theorem searchResult_requests (net : String → FetchOutcome) (p : Page)
    (h : p.searchInputValue ≠ "") :
    (searchResult net p).requests = [baseUrl ++ p.searchInputValue] := by
  unfold searchResult
  rw [if_neg h]
  have hr := fetchData_requests net p.searchInputValue p
  cases hd : (fetchData net p.searchInputValue p).data with
  | none => simp only [hd]; exact hr
  | some d =>
      cases d with
      | nonArray => simp only [hd]; exact hr
      | array records =>
          cases records with
          | nil => simp only [hd]; exact hr
          | cons r rest => simp only [hd]; exact hr

/-! ## Validation of the query (C3) -/

/-- C3, as stated, fails: with the whitespace-only query of one space the
search issues a request and does not take the validation error path (the
error text stays hidden and the input gets no outline). -/
theorem searchResult_whitespace_query_is_sent :
    (" ".toList.all Char.isWhitespace) = true ∧
    (searchResult (fun _ => FetchOutcome.rejected)
        { samplePage with searchInputValue := " " }).requests = [baseUrl ++ " "] ∧
    classContains (searchResult (fun _ => FetchOutcome.rejected)
        { samplePage with searchInputValue := " " }).page.errorTextClass "hide" = true ∧
    getAttribute (searchResult (fun _ => FetchOutcome.rejected)
        { samplePage with searchInputValue := " " }).page.searchInputStyle "outline" = none := by
  refine ⟨by decide, by decide, by decide, by decide⟩

/-- C3, amended: for the empty query text, `searchResult` issues no outbound
request and takes the validation error path: the error text is shown and the
input is given the error outline; nothing is rendered and nothing is raised. -/
theorem searchResult_empty_query (net : String → FetchOutcome) (p : Page)
    (h : p.searchInputValue = "") :
    (searchResult net p).requests = [] ∧
    classContains (searchResult net p).page.errorTextClass "hide" = false ∧
    getAttribute (searchResult net p).page.searchInputStyle "outline"
      = some "1px solid #ff5252" ∧
    (searchResult net p).renderCalls = [] ∧
    (searchResult net p).completion = Completion.normal := by
  rw [searchResult_of_empty net p h]
  exact ⟨rfl, classContains_classRemove _ _, getAttribute_setAttribute_same _ _ _, rfl, rfl⟩

/-- The amended C3 applies to the sample page, whose query text is empty. -/
theorem searchResult_empty_query_witness :
    samplePage.searchInputValue = "" ∧
    (searchResult (fun _ => FetchOutcome.response 200 none) samplePage).requests = [] ∧
    classContains (searchResult (fun _ => FetchOutcome.response 200 none)
      samplePage).page.errorTextClass "hide" = false :=
  ⟨rfl,
   (searchResult_empty_query (fun _ => FetchOutcome.response 200 none) samplePage rfl).1,
   (searchResult_empty_query (fun _ => FetchOutcome.response 200 none) samplePage rfl).2.1⟩

/-! ## Failed lookups (C4) -/

/-- C4: for every non-empty query whose request fails in transport or is
answered with a status other than 200, `searchResult` ends without raising,
with the not-found indicator shown and `renderData` not invoked: the word
heading, the phonetic text, the attributes of the audio player, the meaning
blocks and the attribution lists are what they were before the lookup. -/
theorem searchResult_failed_lookup (net : String → FetchOutcome) (p : Page)
    (hq : p.searchInputValue ≠ "")
    (hf : net (baseUrl ++ p.searchInputValue) = FetchOutcome.rejected ∨
      ∃ status body, net (baseUrl ++ p.searchInputValue) = FetchOutcome.response status body ∧
        status ≠ 200) :
    classContains (searchResult net p).page.notFoundClass "hide" = false ∧
    (searchResult net p).renderCalls = [] ∧
    (searchResult net p).completion = Completion.normal ∧
    (searchResult net p).page.wordElMarkup = p.wordElMarkup ∧
    (searchResult net p).page.phoneticElMarkup = p.phoneticElMarkup ∧
    (searchResult net p).page.audioPlayerAttrs = p.audioPlayerAttrs ∧
    (searchResult net p).page.meaningSectionChildren = p.meaningSectionChildren ∧
    (searchResult net p).page.sourceUrlSectionChildren = p.sourceUrlSectionChildren := by
  have hfail : requestFails (net (baseUrl ++ p.searchInputValue)) = true := by
    rcases hf with h | ⟨status, body, h, hs⟩
    · rw [h]; rfl
    · rw [h]; simp [requestFails, hs]
  have hfd := fetchData_of_requestFails net p.searchInputValue p hfail
  rw [searchResult_of_no_data net p hq (by rw [hfd]), hfd]
  obtain ⟨_, _, _, _, a1, a2, a3, a4, a5⟩ := preFetchingActions_fields p
  obtain ⟨b0, _, _, _, b1, b2, b3, b4, b5⟩ := showNotFound_fields (preFetchingActions p)
  exact ⟨b0, rfl, rfl, b1.trans a1, b2.trans a2, b3.trans a3, b4.trans a4, b5.trans a5⟩

/-- C4 applies to the query `cat` answered with status 404 on a page that
already shows an earlier word. -/
theorem searchResult_failed_lookup_witness :
    classContains (searchResult (fun _ => FetchOutcome.response 404 none)
      { samplePage with searchInputValue := "cat", wordElMarkup := "dog" }).page.notFoundClass
      "hide" = false ∧
    (searchResult (fun _ => FetchOutcome.response 404 none)
      { samplePage with searchInputValue := "cat", wordElMarkup := "dog" }).page.wordElMarkup
      = "dog" :=
  have h := searchResult_failed_lookup (fun _ => FetchOutcome.response 404 none)
    { samplePage with searchInputValue := "cat", wordElMarkup := "dog" }
    (by decide) (Or.inr ⟨404, none, rfl, by decide⟩)
  ⟨h.1, h.2.2.2.1⟩

/-! ## The request URL (C7) -/

theorem flatMap_unreserved (l : List Char) (h : l.all uriUnreserved = true) :
    l.flatMap
      (fun c => if uriUnreserved c then [c] else (utf8Bytes c.toNat).flatMap percentEscape)
      = l := by
  induction l with
  | nil => rfl
  | cons c rest ih =>
      simp only [List.all_cons, Bool.and_eq_true] at h
      rw [List.flatMap_cons, ih h.2, if_pos h.1]
      rfl

/-- C7, as stated, fails: for the query `a/b?c` the URL passed to `fetch` is
the base followed by the query as typed, which is not the base followed by
its URL-encoding `a%2Fb%3Fc`; the slash and the question mark reach the URL
unescaped. -/
theorem searchResult_url_not_encoded :
    (searchResult (fun _ => FetchOutcome.rejected)
        { samplePage with searchInputValue := "a/b?c" }).requests
      = ["https://api.dictionaryapi.dev/api/v2/entries/en/a/b?c"] ∧
    urlEncodeSpec "a/b?c" = "a%2Fb%3Fc" ∧
    (searchResult (fun _ => FetchOutcome.rejected)
        { samplePage with searchInputValue := "a/b?c" }).requests
      ≠ [baseUrl ++ urlEncodeSpec "a/b?c"] := by
  refine ⟨by decide, by decide, by decide⟩

/-- C7, amended: for every non-empty query text `q`, one invocation of
`searchResult` issues exactly one outbound request, and the URL passed to
`fetch` is the fixed base followed by `q` as typed; it is the base followed
by the URL-encoding of `q` when `q` consists of unreserved characters only. -/
theorem searchResult_one_request (net : String → FetchOutcome) (p : Page)
    (hq : p.searchInputValue ≠ "") :
    (searchResult net p).requests =
      ["https://api.dictionaryapi.dev/api/v2/entries/en/" ++ p.searchInputValue] ∧
    (p.searchInputValue.toList.all uriUnreserved = true →
      (searchResult net p).requests =
        ["https://api.dictionaryapi.dev/api/v2/entries/en/" ++
          urlEncodeSpec p.searchInputValue]) := by
  have h := searchResult_requests net p hq
  refine ⟨h, fun hu => ?_⟩
  rw [h]
  unfold urlEncodeSpec
  rw [flatMap_unreserved _ hu]
  rfl

/-- The amended C7 applies to the query `cat`. -/
theorem searchResult_one_request_witness :
    (searchResult (fun _ => FetchOutcome.rejected)
        { samplePage with searchInputValue := "cat" }).requests =
      ["https://api.dictionaryapi.dev/api/v2/entries/en/cat"] ∧
    (searchResult (fun _ => FetchOutcome.rejected)
        { samplePage with searchInputValue := "cat" }).requests =
      ["https://api.dictionaryapi.dev/api/v2/entries/en/" ++ urlEncodeSpec "cat"] :=
  have h := searchResult_one_request (fun _ => FetchOutcome.rejected)
    { samplePage with searchInputValue := "cat" } (by decide)
  ⟨h.1, h.2 (by decide)⟩

/-! ## An empty result array (C8) -/

/-- C8 at its failing input: the query `cat` answered with status 200 and the
body `[]`.  One request is issued, `renderData` is not invoked, the result
sections are revealed, and the run ends by raising a `TypeError`. -/
theorem searchResult_empty_array_throws :
    (searchResult (fun _ => FetchOutcome.response 200 (some (JsonData.array [])))
        { samplePage with searchInputValue := "cat" }).completion
      = Completion.raised JsError.typeError ∧
    (searchResult (fun _ => FetchOutcome.response 200 (some (JsonData.array [])))
        { samplePage with searchInputValue := "cat" }).renderCalls = [] ∧
    (searchResult (fun _ => FetchOutcome.response 200 (some (JsonData.array [])))
        { samplePage with searchInputValue := "cat" }).requests = [baseUrl ++ "cat"] ∧
    classContains (searchResult (fun _ => FetchOutcome.response 200 (some (JsonData.array [])))
        { samplePage with searchInputValue := "cat" }).page.wordSectionClass "hide" = false := by
  refine ⟨by decide, by decide, by decide, by decide⟩

/-! ## The fetched transition (C10) -/

/-- C10 at its failing input: a request answered with status 200 and a body
that does not parse.  For every query text and every page, `fetchData` returns
nothing and shows the not-found indicator, as on the other failure paths, but
the word, meaning and source-URL sections are revealed at the same time:
`fetchSuccessActions` has run before the body was read and the `catch` block
does not hide the sections again.  On the sample page with the query `cat`
answered with status 404 the three sections are hidden. -/
theorem fetchData_malformed_body_reveals_sections (text : String) (p : Page) :
    (fetchData (fun _ => FetchOutcome.response 200 none) text p).data = none ∧
    classContains (fetchData (fun _ => FetchOutcome.response 200 none) text
      p).page.notFoundClass "hide" = false ∧
    classContains (fetchData (fun _ => FetchOutcome.response 200 none) text
      p).page.wordSectionClass "hide" = false ∧
    classContains (fetchData (fun _ => FetchOutcome.response 200 none) text
      p).page.meaningSectionClass "hide" = false ∧
    classContains (fetchData (fun _ => FetchOutcome.response 200 none) text
      p).page.sourceUrlSectionClass "hide" = false ∧
    classContains (fetchData (fun _ => FetchOutcome.response 404 none) "cat"
      samplePage).page.notFoundClass "hide" = false ∧
    classContains (fetchData (fun _ => FetchOutcome.response 404 none) "cat"
      samplePage).page.wordSectionClass "hide" = true ∧
    classContains (fetchData (fun _ => FetchOutcome.response 404 none) "cat"
      samplePage).page.meaningSectionClass "hide" = true ∧
    classContains (fetchData (fun _ => FetchOutcome.response 404 none) "cat"
      samplePage).page.sourceUrlSectionClass "hide" = true := by
  rw [fetchData_of_ok (fun _ => FetchOutcome.response 200 none) text p none rfl]
  obtain ⟨_, c2, c3, c4, _⟩ := fetchSuccessActions_fields (preFetchingActions p)
  obtain ⟨b0, b2, b3, b4, _⟩ :=
    showNotFound_fields (fetchSuccessActions (preFetchingActions p))
  refine ⟨rfl, b0, ?_, ?_, ?_, by decide, by decide, by decide, by decide⟩
  · simp only [b2]; exact c2
  · simp only [b3]; exact c3
  · simp only [b4]; exact c4

/-! ## Meaning blocks (C6) -/

theorem appendChild_element (tag : String) (cl : List String)
    (attrs : List (String × String)) (cs : List Node) (c : Node) :
    appendChild (Node.element tag cl attrs cs) c = Node.element tag cl attrs (cs ++ [c]) :=
  rfl

theorem setTextContent_element (tag : String) (cl : List String)
    (attrs : List (String × String)) (cs : List Node) (s : String) :
    setTextContent (Node.element tag cl attrs cs) s =
      Node.element tag cl attrs (if s = "" then [] else [Node.text s]) :=
  rfl

theorem nodeClassAdd_element (tag : String) (cl : List String)
    (attrs : List (String × String)) (cs : List Node) (t : String) :
    nodeClassAdd (Node.element tag cl attrs cs) t = Node.element tag (classAdd cl t) attrs cs :=
  rfl

theorem nodeSetAttribute_element (tag : String) (cl : List String)
    (attrs : List (String × String)) (cs : List Node) (n v : String) :
    nodeSetAttribute (Node.element tag cl attrs cs) n v =
      Node.element tag cl (setAttribute attrs n v) cs :=
  rfl

theorem foldl_appendChild {α : Type} (f : α → Node) (l : List α) (tag : String)
    (cl : List String) (attrs : List (String × String)) (cs : List Node) :
    l.foldl (fun ul x => appendChild ul (f x)) (Node.element tag cl attrs cs) =
      Node.element tag cl attrs (cs ++ l.map f) := by
  induction l generalizing cs with
  | nil => simp
  | cons x rest ih =>
      rw [List.foldl_cons, appendChild_element, ih]
      simp

theorem quoted_ne_empty (e : String) : dquote ++ e ++ dquote ≠ "" := by
  intro h
  have hlen := congrArg String.length h
  simp [dquote] at hlen

theorem definitionItem_eq (d : Definition) : definitionItem d = definitionItemSpec d := by
  obtain ⟨text, ex⟩ := d
  cases ex with
  | undefined => rfl
  | null => rfl
  | str e =>
      by_cases he : e = ""
      · subst he
        rfl
      · simp only [definitionItem, definitionItemSpec, textElementSpec, JsVal.truthy,
          JsVal.toStr, createElement, setTextContent_element, appendChild_element]
        simp [he, quoted_ne_empty]

theorem linkItem_eq (w : String) :
    linkItem w =
      Node.element "li" [] [] [textElementSpec "a" [("href", "javascript:void(0);")] w] := by
  simp only [linkItem, textElementSpec, createElement, setTextContent_element,
    appendChild_element, nodeSetAttribute_element, setAttribute]
  simp

theorem meaningContainer_eq (m : Meaning) : meaningContainer m = meaningBlockSpec m := by
  obtain ⟨pos, defs, syns, ants⟩ := m
  have hdefs := foldl_appendChild definitionItem defs "ul" [] [] []
  have hsyns := foldl_appendChild linkItem syns "ul" [] [] []
  have hants := foldl_appendChild linkItem ants "ul" [] [] []
  have hmapd : defs.map definitionItem = defs.map definitionItemSpec :=
    List.map_congr_left (fun d _ => definitionItem_eq d)
  have hmapl : ∀ ws : List String, ws.map linkItem = ws.map (fun w =>
      Node.element "li" [] [] [textElementSpec "a" [("href", "javascript:void(0);")] w]) :=
    fun ws => List.map_congr_left (fun w _ => linkItem_eq w)
  simp only [meaningContainer, createElement, hdefs, hsyns, hants, hmapd, hmapl,
    setTextContent_element, appendChild_element, nodeClassAdd_element]
  cases syns <;> cases ants <;>
    simp [meaningBlockSpec, wordListSpec, textElementSpec, classAdd, classContains,
      appendChild_element]

theorem renderMeanings_eq (meanings : List Meaning) (p : Page) :
    renderMeanings meanings p =
      { p with meaningSectionChildren :=
          p.meaningSectionChildren ++ meanings.map meaningContainer } := by
  unfold renderMeanings
  induction meanings generalizing p with
  | nil => simp
  | cons m rest ih =>
      rw [List.foldl_cons, ih]
      simp

theorem hasChildOfClass_meaningBlockSpec (m : Meaning) :
    hasChildOfClass (meaningBlockSpec m) "synonyms" = !m.synonyms.isEmpty ∧
    hasChildOfClass (meaningBlockSpec m) "antonyms" = !m.antonyms.isEmpty := by
  obtain ⟨pos, defs, syns, ants⟩ := m
  cases syns <;> cases ants <;>
    simp [hasChildOfClass, meaningBlockSpec, wordListSpec, textElementSpec, Node.childNodes,
      classContains]

/-- C6: `renderMeanings` appends one block per meaning, in input order.  Each
block holds the part-of-speech label, the heading `Meaning`, then the
definitions list with one item per definition in order (the definition text,
followed by the example between double quotes exactly when the example is
present, that is a non-empty string), then a synonyms block exactly when the
synonym list is non-empty, then an antonyms block exactly when the antonym
list is non-empty.  A meaning with `synonyms = []` and `antonyms = ["x"]`
yields an antonyms block and no synonyms block. -/
theorem renderMeanings_blocks (meanings : List Meaning) (p : Page) :
    (renderMeanings meanings p).meaningSectionChildren =
      p.meaningSectionChildren ++ meanings.map meaningBlockSpec ∧
    (∀ m : Meaning,
      hasChildOfClass (meaningContainer m) "synonyms" = !m.synonyms.isEmpty ∧
      hasChildOfClass (meaningContainer m) "antonyms" = !m.antonyms.isEmpty) ∧
    (∀ (pos : String) (defs : List Definition),
      (meaningContainer ⟨pos, defs, [], ["x"]⟩).childNodes =
        [textElementSpec "h2" [] pos,
         Node.element "h3" [] [] [Node.text "Meaning"],
         Node.element "ul" [] [] (defs.map definitionItemSpec),
         wordListSpec "antonyms" "Antonyms" ["x"]]) := by
  refine ⟨?_, ?_, ?_⟩
  · rw [renderMeanings_eq]
    have : meanings.map meaningContainer = meanings.map meaningBlockSpec :=
      List.map_congr_left (fun m _ => meaningContainer_eq m)
    simp [this]
  · intro m
    rw [meaningContainer_eq]
    exact hasChildOfClass_meaningBlockSpec m
  · intro pos defs
    rw [meaningContainer_eq]
    simp [meaningBlockSpec, Node.childNodes]

/-! ## Sequences of lookups (C5) -/

theorem removeAllChildren_eq (l : List Node) : removeAllChildren l = [] := by
  induction l with
  | nil => rfl
  | cons c rest ih => simpa [removeAllChildren] using ih

theorem ulPathsFrom_append (i : Nat) (xs ys : List Node) :
    ulPathsFrom i (xs ++ ys) = ulPathsFrom i xs ++ ulPathsFrom (i + xs.length) ys := by
  induction xs generalizing i with
  | nil => simp [ulPathsFrom]
  | cons x rest ih =>
      have hidx : i + 1 + rest.length = i + (rest.length + 1) := by omega
      rw [List.cons_append]
      simp only [ulPathsFrom, List.length_cons]
      rw [ih, hidx, List.append_assoc]

theorem ulPathsFrom_eq_nil_iff (i : Nat) (xs : List Node) :
    ulPathsFrom i xs = [] ↔ ∀ c ∈ xs, ulPaths c = [] := by
  induction xs generalizing i with
  | nil => simp [ulPathsFrom]
  | cons x rest ih =>
      simp [ulPathsFrom, ih]

theorem ulPaths_sourceUrlItem (u : String) : ulPaths (sourceUrlItem u) = [] := by
  simp [sourceUrlItem, createElement, createTextNode, nodeSetAttribute_element,
    appendChild_element, ulPaths, ulPathsFrom]

theorem sourceUrlList_eq (urls : List String) :
    sourceUrlList urls = Node.element "ul" [] [] (urls.map sourceUrlItem) := by
  unfold sourceUrlList createElement
  rw [foldl_appendChild]
  simp

theorem ulPaths_sourceUrlList (urls : List String) : ulPaths (sourceUrlList urls) = [[]] := by
  rw [sourceUrlList_eq]
  have h : ulPathsFrom 0 (urls.map sourceUrlItem) = [] := by
    rw [ulPathsFrom_eq_nil_iff]
    intro c hc
    obtain ⟨u, _, rfl⟩ := List.mem_map.1 hc
    exact ulPaths_sourceUrlItem u
  simp [ulPaths, h]

theorem eraseIdx_length_append (xs : List Node) (a b : Node) :
    (xs ++ [a, b]).eraseIdx xs.length = xs ++ [b] := by
  induction xs with
  | nil => rfl
  | cons x rest ih => simpa using ih

theorem sourceUrlListSpec_eq (urls : List String) :
    sourceUrlList urls = sourceUrlListSpec urls := by
  rw [sourceUrlList_eq]
  unfold sourceUrlListSpec
  have h : urls.map sourceUrlItem = urls.map (fun u =>
      Node.element "li" [] []
        [Node.element "a" [] [("href", u), ("target", "_blank")]
          [Node.text u,
           Node.element "img" []
            [("src", "./assets/images/icon-new-window.svg"), ("aria-hidden", "true")]
            []]]) := by
    apply List.map_congr_left
    intro u _
    simp [sourceUrlItem, createElement, createTextNode, nodeSetAttribute_element,
      appendChild_element, setAttribute]
  rw [h]

theorem sourceUrlCleanup_first (q : Page) (base : List Node) (u : List String)
    (hb : ulPathsFrom 0 base = [])
    (hw : headingMatches q.wordElMarkup = some 0)
    (hp : headingMatches q.phoneticElMarkup = some 0)
    (hq : q.sourceUrlSectionChildren = base ++ [sourceUrlList u]) :
    sourceUrlCleanup q = (q, Completion.normal) := by
  unfold sourceUrlCleanup
  simp [hw, hp, hq, ulPathsFrom_append, hb, ulPathsFrom, ulPaths_sourceUrlList]

theorem sourceUrlCleanup_second (q : Page) (base : List Node) (prev u : List String)
    (hb : ulPathsFrom 0 base = [])
    (hw : headingMatches q.wordElMarkup = some 0)
    (hp : headingMatches q.phoneticElMarkup = some 0)
    (hq : q.sourceUrlSectionChildren = base ++ [sourceUrlList prev, sourceUrlList u]) :
    sourceUrlCleanup q =
      ({ q with sourceUrlSectionChildren := base ++ [sourceUrlList u] },
        Completion.normal) := by
  unfold sourceUrlCleanup
  have hpaths : ulPathsFrom 0 (base ++ [sourceUrlList prev, sourceUrlList u]) =
      [[base.length], [base.length + 1]] := by
    simp [ulPathsFrom_append, hb, ulPathsFrom, ulPaths_sourceUrlList]
  rw [hq, hpaths]
  have herase := eraseIdx_length_append base (sourceUrlList prev) (sourceUrlList u)
  simp [hw, hp, herase]

theorem renderPhonetics_sections (word : String) (phonetic : JsVal)
    (phonetics : List PhoneticVariant) (p : Page) :
    (renderPhonetics word phonetic phonetics p).sourceUrlSectionChildren =
      p.sourceUrlSectionChildren ∧
    (renderPhonetics word phonetic phonetics p).meaningSectionChildren =
      p.meaningSectionChildren := by
  unfold renderPhonetics
  cases ha : (phonetics.foldl phoneticsReducer PhoneticAcc.empty).audio.truthy <;>
    cases hc : classContains p.playButtonClass "hide" <;> simp [ha, hc]

theorem renderData_step (base : List Node) (hb : ulPathsFrom 0 base = []) (p : Page)
    (hp : p.sourceUrlSectionChildren = base ∨
      ∃ prev, p.sourceUrlSectionChildren = base ++ [sourceUrlList prev])
    (word : String) (phonetic : JsVal) (phonetics : List PhoneticVariant)
    (meanings : List Meaning) (sourceUrls : List String)
    (hword : headingMatches word = some 0)
    (hphon : headingMatches (phoneticMarkupOf phonetic phonetics) = some 0) :
    (renderData word phonetic phonetics meanings sourceUrls p).2 = Completion.normal ∧
    (renderData word phonetic phonetics meanings sourceUrls p).1.meaningSectionChildren =
      meanings.map meaningContainer ∧
    (renderData word phonetic phonetics meanings sourceUrls p).1.sourceUrlSectionChildren =
      base ++ [sourceUrlList sourceUrls] := by
  obtain ⟨hs, _⟩ := renderPhonetics_sections word phonetic phonetics p
  obtain ⟨hfw, hfp⟩ := renderPhonetics_fields word phonetic phonetics p
  have hfp2 : (renderPhonetics word phonetic phonetics p).phoneticElMarkup =
      phoneticMarkupOf phonetic phonetics := hfp
  unfold renderData renderSourceUrls
  simp only [renderMeanings_eq, removeAllChildren_eq, List.nil_append]
  rcases hp with h | ⟨prev, h⟩
  · rw [sourceUrlCleanup_first _ base sourceUrls hb (by simp only [hfw]; exact hword)
      (by simp only [hfp2]; exact hphon) (by simp only [hs, h])]
    simp [hs, h]
  · rw [sourceUrlCleanup_second _ base prev sourceUrls hb (by simp only [hfw]; exact hword)
      (by simp only [hfp2]; exact hphon) (by simp [hs, h])]
    simp

theorem renderDataSequence_latest (base : List Node) (hb : ulPathsFrom 0 base = [])
    (earlier : List LookupResult) (latest : LookupResult) (p : Page)
    (hp : p.sourceUrlSectionChildren = base ∨
      ∃ prev, p.sourceUrlSectionChildren = base ++ [sourceUrlList prev])
    (hall : ∀ r ∈ earlier ++ [latest], headingMatches r.word = some 0 ∧
      headingMatches (phoneticMarkupOf r.phonetic r.phonetics) = some 0) :
    (renderDataSequence (earlier ++ [latest]) p).2 =
      (earlier ++ [latest]).map (fun _ => Completion.normal) ∧
    (renderDataSequence (earlier ++ [latest]) p).1.meaningSectionChildren =
      latest.meanings.map meaningContainer ∧
    (renderDataSequence (earlier ++ [latest]) p).1.sourceUrlSectionChildren =
      base ++ [sourceUrlList latest.sourceUrls] := by
  induction earlier generalizing p with
  | nil =>
      obtain ⟨hw, hph⟩ := hall latest (by simp)
      obtain ⟨h1, h2, h3⟩ := renderData_step base hb p hp latest.word latest.phonetic
        latest.phonetics latest.meanings latest.sourceUrls hw hph
      simp only [List.nil_append, renderDataSequence, List.map_cons, List.map_nil]
      exact ⟨by rw [h1], h2, h3⟩
  | cons r rest ih =>
      obtain ⟨hw, hph⟩ := hall r (by simp)
      obtain ⟨h1, _, h3⟩ := renderData_step base hb p hp r.word r.phonetic
        r.phonetics r.meanings r.sourceUrls hw hph
      obtain ⟨i1, i2, i3⟩ := ih
        (renderData r.word r.phonetic r.phonetics r.meanings r.sourceUrls p).1
        (Or.inr ⟨r.sourceUrls, h3⟩)
        (fun x hx => hall x (by simp only [List.cons_append, List.mem_cons]; exact Or.inr hx))
      simp only [List.cons_append, renderDataSequence, List.map_cons]
      refine ⟨?_, i2, i3⟩
      rw [h1]
      exact congrArg (List.cons Completion.normal) i1

/-- Sequences of results whose word and phonetic markup put no match of
`.source-urls ul` into the headings (text without `<`, `&`, NUL and CR is
such markup, by `headingMatches_plain`), on a page whose source-URL section
holds no list: every call ends normally, the meaning section holds exactly the
blocks of the latest result, and the source-URL section holds its static
children followed by exactly one list, that of the latest result. -/
theorem renderDataSequence_without_markup (p0 : Page)
    (hs : ulPathsFrom 0 p0.sourceUrlSectionChildren = [])
    (earlier : List LookupResult) (latest : LookupResult)
    (hall : ∀ r ∈ earlier ++ [latest], headingMatches r.word = some 0 ∧
      headingMatches (phoneticMarkupOf r.phonetic r.phonetics) = some 0) :
    (renderDataSequence (earlier ++ [latest]) p0).2 =
      (earlier ++ [latest]).map (fun _ => Completion.normal) ∧
    (renderDataSequence (earlier ++ [latest]) p0).1.meaningSectionChildren =
      latest.meanings.map meaningBlockSpec ∧
    (renderDataSequence (earlier ++ [latest]) p0).1.sourceUrlSectionChildren =
      p0.sourceUrlSectionChildren ++ [sourceUrlListSpec latest.sourceUrls] ∧
    ulPathsFrom 0 (renderDataSequence (earlier ++ [latest]) p0).1.sourceUrlSectionChildren =
      [[p0.sourceUrlSectionChildren.length]] := by
  obtain ⟨h1, h2, h3⟩ := renderDataSequence_latest p0.sourceUrlSectionChildren hs earlier
    latest p0 (Or.inl rfl) hall
  have hmap : latest.meanings.map meaningContainer = latest.meanings.map meaningBlockSpec :=
    List.map_congr_left (fun m _ => meaningContainer_eq m)
  refine ⟨h1, h2.trans hmap, ?_, ?_⟩
  · rw [h3, sourceUrlListSpec_eq]
  · rw [h3]
    simp [ulPathsFrom_append, hs, ulPathsFrom, ulPaths_sourceUrlList]

/-- C5 at its failing input: two calls of `renderData` with a result whose
word is the markup `<div class=source-urls><ul>`, starting from the sample
page, where the headings precede the source-URL section.  The word heading
then holds a `ul` that `.source-urls ul` matches first; `removeChild` raises
`NotFoundError` in both calls and nothing is pruned, so the section ends with
two lists.  With the headings after the section, one such call removes the
list it has just appended and leaves the section without a list. -/
theorem renderData_sequence_markup_word :
    parseFragment markupWordResult.word =
      some [Node.element "div" ["source-urls"] [] [Node.element "ul" [] [] []]] ∧
    (renderDataSequence [markupWordResult, markupWordResult] samplePage).2 =
      [Completion.raised JsError.notFoundError, Completion.raised JsError.notFoundError] ∧
    (renderDataSequence [markupWordResult, markupWordResult]
        samplePage).1.sourceUrlSectionChildren =
      [sourceUrlListSpec ["https://a.example/x"], sourceUrlListSpec ["https://a.example/x"]] ∧
    (renderDataSequence [markupWordResult]
        { samplePage with headingsPrecedeSourceUrls := false }).2 = [Completion.normal] ∧
    (renderDataSequence [markupWordResult]
        { samplePage with headingsPrecedeSourceUrls := false }).1.sourceUrlSectionChildren =
      [] := by
  refine ⟨by rfl, by decide, by rfl, by decide, by rfl⟩

end Dictionary
